import Mathlib

/-!
Verification development for the design-system token infrastructure
(`scripts/validate-tokens.js`, `scripts/figma-sync-dry-run.js`,
`scripts/figma-sync-apply.js`).

The JavaScript sources are shallowly embedded: JS `Map` / `Set` / plain
objects become insertion-ordered association lists, regular expressions
become explicit character-level matchers with the same backtracking
semantics, and the iterative depth-first searches become fuel-indexed
loops whose fuel provably exceeds the number of loop iterations the JS
`while` loops can perform.
-/

set_option autoImplicit false

namespace DS

/-! ## Character classes and basic string utilities (JS semantics) -/

/-- Matches the JS regex character class `[\w-]` (ASCII word char or hyphen). -/
def isWordChar (c : Char) : Bool :=
  c.isAlphanum || c = '_' || c = '-'

/-- Matches the JS regex class `\s` for the whitespace characters that occur
in stylesheet text (space, tab, LF, CR, VT, FF). -/
def isWsChar (c : Char) : Bool :=
  c = ' ' || c = '\t' || c = '\n' || c = '\r' || c = '\x0b' || c = '\x0c'

/-- JS `String.prototype.trim()`. -/
def jsTrim (s : String) : String :=
  String.mk (((s.data.dropWhile isWsChar).reverse.dropWhile isWsChar).reverse)

/-- JS `String.prototype.toLowerCase()` (ASCII range; the CLI answers and
token names this system compares are ASCII). -/
def jsToLower (s : String) : String :=
  String.mk (s.data.map Char.toLower)

/-- JS `a.startsWith(b)`. -/
def strStarts (s pre : String) : Bool :=
  List.isPrefixOf pre.data s.data

/-- JS `css.split('\n')`. -/
def splitLinesAux : List Char → List Char → List String
  | [], acc => [String.mk acc.reverse]
  | c :: rest, acc =>
    if c = '\n' then String.mk acc.reverse :: splitLinesAux rest []
    else splitLinesAux rest (c :: acc)

def splitLines (s : String) : List String :=
  splitLinesAux s.data []

/-- Number of occurrences of a character in a line
(JS `(line.match(/{/g) || []).length`). -/
def countChar (c : Char) (s : String) : Nat :=
  (s.data.filter (fun x => x = c)).length

def openBr : Char := '\x7b'

def closeBr : Char := '\x7d'

/-! ## Insertion-ordered maps and sets (JS `Map`, `Set`, plain objects)

JS `Map` and plain objects preserve insertion order; `set` on an existing
key updates the value in place, otherwise the entry is appended. `Set.add`
appends if absent; `Set.delete` and object `delete` remove the entry. -/

/-- JS `map.get(k)` (first — and only, for maps built by `jsSet` — binding). -/
def jsGet {β : Type} (m : List (String × β)) (k : String) : Option β :=
  match m with
  | [] => none
  | (k', v) :: rest => if k = k' then some v else jsGet rest k

/-- JS `map.set(k, v)`: update in place if present, else append. -/
def jsSet {β : Type} (m : List (String × β)) (k : String) (v : β) :
    List (String × β) :=
  match m with
  | [] => [(k, v)]
  | (k', v') :: rest =>
    if k = k' then (k', v) :: rest else (k', v') :: jsSet rest k v

/-- The guarded insert used by `parseCSS`
(`if (!tokenDefs.has(name)) tokenDefs.set(name, v)`). -/
def jsSetIfAbsent {β : Type} (m : List (String × β)) (k : String) (v : β) :
    List (String × β) :=
  if (jsGet m k).isSome then m else m ++ [(k, v)]

/-- JS `set.add(k)`. -/
def jsSetAdd (s : List String) (k : String) : List String :=
  if k ∈ s then s else s ++ [k]

/-- JS `set.delete(k)` / `delete obj[k]`. -/
def jsSetDelete (s : List String) (k : String) : List String :=
  s.filter (fun x => x ≠ k)

/-- JS object `delete tokens[name]`. -/
def jsDelete {β : Type} (m : List (String × β)) (k : String) :
    List (String × β) :=
  match m with
  | [] => []
  | (k0, v0) :: rest =>
    if k0 = k then jsDelete rest k else (k0, v0) :: jsDelete rest k

/-- JS `x || null` on an optional string property: `undefined`, `null` and
the empty string are falsy and collapse to `null`. -/
def jsOrNull (o : Option String) : Option String :=
  match o with
  | some v => if v = String.mk [] then none else some v
  | none => none

/-- JS `x || d` where `x` is an optional string property and `d` a string. -/
def jsOr (o : Option String) (d : String) : String :=
  match o with
  | some v => if v = String.mk [] then d else v
  | none => d

/-! ## Regex matchers

Each JS regex used by the scripts is embedded as a character-level matcher
with the same (backtracking) semantics. -/

/-- Test for `/^:root\s*\{/` on a trimmed line. -/
def matchRootOpen (s : String) : Bool :=
  match s.data with
  | ':' :: 'r' :: 'o' :: 'o' :: 't' :: rest =>
    match rest.dropWhile isWsChar with
    | c :: _ => c = openBr
    | [] => false
  | _ => false

/-- Match `/^@layer\s+([\w-]+)\s*\{/` on a trimmed line, returning the layer
name capture. -/
def matchLayerOpen (s : String) : Option String :=
  match s.data with
  | '@' :: 'l' :: 'a' :: 'y' :: 'e' :: 'r' :: c :: rest =>
    if isWsChar c then
      let rest2 := rest.dropWhile isWsChar
      let run := rest2.takeWhile isWordChar
      let rest3 := rest2.dropWhile isWordChar
      if run ≠ [] then
        match rest3.dropWhile isWsChar with
        | c2 :: _ => if c2 = openBr then some (String.mk run) else none
        | [] => none
      else none
    else none
  | _ => none

/-- After the value candidate, the regex tail `\s*;` must match: skip the
maximal whitespace run and require a semicolon (`;` is not whitespace, so
backtracking inside this `\s*` can never produce a different outcome). -/
def semiAfterWs (l : List Char) : Bool :=
  match l.dropWhile isWsChar with
  | ';' :: _ => true
  | [] => false
  | _ :: _ => false

/-- The lazy group `(.+?)` of the declaration regex: the shortest non-empty
prefix (of non-newline characters) after which `\s*;` matches. -/
def lazyValue : List Char → Option (List Char)
  | [] => none
  | c :: rest =>
    if c = '\n' then none
    else if semiAfterWs rest then some [c]
    else (lazyValue rest).map (fun v => c :: v)

/-- Backtracking of the greedy `\s*` that precedes `(.+?)`: the maximal
whitespace run is tried first, then successively shorter runs. -/
def valueAfterWs (l : List Char) : Nat → Option (List Char)
  | 0 => lazyValue l
  | i + 1 =>
    match lazyValue (l.drop (i + 1)) with
    | some v => some v
    | none => valueAfterWs l i

/-- Match `/^(--[\w-]+)\s*:\s*(.+?)\s*;/` on a trimmed line, returning the
name and value captures. -/
def matchDef (s : String) : Option (String × String) :=
  match s.data with
  | '-' :: '-' :: rest =>
    let run := rest.takeWhile isWordChar
    if run = [] then none
    else
      match (rest.dropWhile isWordChar).dropWhile isWsChar with
      | ':' :: rest2 =>
        match valueAfterWs rest2 ((rest2.takeWhile isWsChar).length) with
        | some v => some (String.mk ('-' :: '-' :: run), String.mk v)
        | none => none
      | _ => none
  | _ => none

/-- One attempt of `/var\(\s*(--[\w-]+)/g` at a position just past `var(`:
returns the captured name and the number of characters consumed after the
opening parenthesis. -/
def tryRefTail (rest : List Char) : Option (String × Nat) :=
  let w := (rest.takeWhile isWsChar).length
  match rest.drop w with
  | '-' :: '-' :: rest2 =>
    let run := rest2.takeWhile isWordChar
    if run = [] then none
    else some (String.mk ('-' :: '-' :: run), w + 2 + run.length)
  | _ => none

/-- All matches of `/var\(\s*(--[\w-]+)/g`: the scan resumes after each
match end; a failed attempt advances the start position by one. Every
recursive call strictly shortens the list, so fuel equal to the list
length is never exhausted (structural recursion on the fuel keeps the
definition kernel-reducible). -/
def scanVarRefsAux : Nat → List Char → List String
  | 0, _ => []
  | _ + 1, [] => []
  | fuel + 1, 'v' :: 'a' :: 'r' :: '(' :: rest =>
    match tryRefTail rest with
    | some (name, k) => name :: scanVarRefsAux fuel (rest.drop k)
    | none => scanVarRefsAux fuel ('a' :: 'r' :: '(' :: rest)
  | fuel + 1, _ :: rest => scanVarRefsAux fuel rest

def scanVarRefs (l : List Char) : List String :=
  scanVarRefsAux l.length l

/-- Source `extractVarRefs(value)`. -/
def extractVarRefs (value : String) : List String :=
  scanVarRefs value.data

/-- First index of a string in a list (length when absent), as JS
`indexOf` (which returns `-1` when absent; see `cycleFrom`). -/
def idxOfStr : List String → String → Nat
  | [], _ => 0
  | y :: rest, x => if y = x then 0 else idxOfStr rest x + 1

/-- Cycle reconstruction `[...path.slice(startIdx), dep]` with
`startIdx = path.indexOf(dep)`, shared by both `findCycles`
implementations. When `dep` is not on the path (unreachable for a GRAY
node), JS `indexOf` returns `-1` and `slice(-1)` keeps only the last
element; `idxOfStr` returns the length there, mirrored below. -/
def cycleFrom (path : List String) (dep : String) : List String :=
  let i := idxOfStr path dep
  (if i < path.length then path.drop i else path.drop (path.length - 1)) ++ [dep]

/-- An entry of the compiled `errors` / `warnings` arrays (the
`{ message, detail }` objects pushed by all three scripts). -/
structure ReportMsg where
  message : String
  detail : Option String
  deriving DecidableEq

/-- The `Circular dependency` error pushed for each detected cycle (same
template in all three scripts). -/
def cycleMsg (cyc : List String) : ReportMsg :=
  ⟨"Circular dependency: " ++ String.intercalate (" → ") cyc, none⟩

/-! ## `scripts/validate-tokens.js` (Phase 10 validator) -/

namespace Validate

/-- Source `getTier(name)`. -/
def getTier (name : String) : String :=
  if strStarts name ("--primitive-") then "primitive"
  else if strStarts name ("--semantic-") then "semantic"
  else if strStarts name ("--component-") then "component"
  else if strStarts name ("--base-") then "base"
  else "unknown"

/-- Source `ALLOWED_DEPS` table (only ever indexed by the five tier names
`getTier` can return). -/
def allowedDeps : String → List String
  | "primitive" => []
  | "semantic" => ["primitive"]
  | "component" => ["semantic", "base"]
  | "base" => ["semantic"]
  | "unknown" => ["primitive", "semantic", "component", "base", "unknown"]
  | _ => []

/-- Entry of the `tokenDefs` map built by `parseCSS`. -/
structure TokenDef where
  value : String
  refs : List String
  line : Nat
  layer : Option String
  deriving DecidableEq

/-- Entry of the `primInRules` array built by `parseCSS`. -/
structure PrimUse where
  token : String
  line : Nat
  context : String
  deriving DecidableEq

/-- Result of `parseCSS`. -/
structure ParseResult where
  tokenDefs : List (String × TokenDef)
  ruleUsages : List String
  primInRules : List PrimUse
  deriving DecidableEq

/-- Parser state threaded through the line loop of `parseCSS`. -/
structure Ctx where
  braceDepth : Int
  inRoot : Bool
  rootDepth : Int
  layerStack : List (String × Int)
  deriving DecidableEq

/-- The `while` loop popping expired `@layer` stack entries
(`braceDepth < top.depth`); the stack top is the list end. -/
def popExpired (depth : Int) (st : List (String × Int)) : List (String × Int) :=
  (st.reverse.dropWhile (fun e => depth < e.2)).reverse

/-- What a single line of CSS contributes. -/
inductive LineOut where
  | skip
  | rootDef (d : Option (String × String)) (layer : Option String)
  | ruleUses (names : List String)
  deriving DecidableEq

/-- One iteration of the `parseCSS` line loop: context transition plus the
line's contribution (which never depends on the accumulated maps). -/
def lineStep (ctx : Ctx) (line : String) : Ctx × LineOut :=
  let trimmed := jsTrim line
  if trimmed = String.mk [] || strStarts trimmed ("/*") || strStarts trimmed ("//") then
    (ctx, .skip)
  else
    let opens := countChar openBr line
    let closes := countChar closeBr line
    let layerM := matchLayerOpen trimmed
    let isRootOpen := !ctx.inRoot && matchRootOpen trimmed
    let depth := ctx.braceDepth + (opens : Int) - (closes : Int)
    let stack1 :=
      match layerM with
      | some nm => ctx.layerStack ++ [(nm, depth)]
      | none => ctx.layerStack
    let stack2 := popExpired depth stack1
    let (inRoot1, rootDepth1) :=
      if isRootOpen then (true, depth) else (ctx.inRoot, ctx.rootDepth)
    let (inRoot2, rootDepth2) :=
      if inRoot1 && depth < rootDepth1 then (false, (-1 : Int)) else (inRoot1, rootDepth1)
    let currentLayer := (stack2.getLast?).map Prod.fst
    let out : LineOut :=
      if inRoot2 then .rootDef (matchDef trimmed) currentLayer
      else if depth > 0 then .ruleUses (scanVarRefs trimmed.data)
      else .skip
    (⟨depth, inRoot2, rootDepth2, stack2⟩, out)

/-- JS `trimmed.length > 100 ? trimmed.slice(0, 97) + '…' : trimmed`. -/
def contextOf (trimmed : String) : String :=
  if trimmed.length > 100 then trimmed.take 97 ++ ("…") else trimmed

/-- Record one `var()` usage found in a non-`:root` rule. -/
def addUsage (lineNum : Nat) (context : String) (acc : ParseResult) (nm : String) :
    ParseResult :=
  let acc1 := { acc with ruleUsages := jsSetAdd acc.ruleUsages nm }
  if strStarts nm ("--primitive-") then
    { acc1 with primInRules := acc1.primInRules ++ [⟨nm, lineNum, context⟩] }
  else acc1

/-- Fold a line's contribution into the accumulated parse result. -/
def applyOut (acc : ParseResult) (out : LineOut) (lineNum : Nat) (trimmed : String) :
    ParseResult :=
  match out with
  | .skip => acc
  | .rootDef none _ => acc
  | .rootDef (some (name, value)) layer =>
    { acc with
      tokenDefs := jsSetIfAbsent acc.tokenDefs name
        ⟨value, extractVarRefs value, lineNum, layer⟩ }
  | .ruleUses names => names.foldl (addUsage lineNum (contextOf trimmed)) acc

/-- The line loop of `parseCSS`. -/
def parseCSSLines : Ctx → ParseResult → Nat → List String → ParseResult
  | _, acc, _, [] => acc
  | ctx, acc, lineNum, l :: rest =>
    let (ctx2, out) := lineStep ctx l
    parseCSSLines ctx2 (applyOut acc out lineNum (jsTrim l)) (lineNum + 1) rest

/-- Source `parseCSS(css)`. -/
def parseCSS (css : String) : ParseResult :=
  parseCSSLines ⟨0, false, -1, []⟩ ⟨[], [], []⟩ 1 (splitLines css)

/-- Source `buildGraph(tokenDefs)`. -/
def buildGraph (tokenDefs : List (String × TokenDef)) :
    List (String × List String) :=
  tokenDefs.foldl (fun g e => jsSet g e.1 e.2.refs) []

/-- Rule 1 result entry. -/
structure MissingRef where
  consumer : String
  missing : String
  line : Option Nat
  deriving DecidableEq

/-- Rule 1, token-to-token part of `findMissingRefs`. -/
def missingFromDefs (defined : List String) :
    List (String × TokenDef) → List MissingRef
  | [] => []
  | (name, d) :: rest =>
    d.refs.filterMap (fun dep =>
      if defined.contains dep then none
      else some ⟨name, dep, some d.line⟩) ++ missingFromDefs defined rest

/-- Source `findMissingRefs(tokenDefs, ruleUsages)`. -/
def findMissingRefs (tokenDefs : List (String × TokenDef))
    (ruleUsages : List String) : List MissingRef :=
  let defined := tokenDefs.map Prod.fst
  missingFromDefs defined tokenDefs ++
    ruleUsages.filterMap (fun u =>
      if defined.contains u then none
      else some ⟨"(css rule)", u, none⟩)

/-- Rule 3 result entry. -/
structure TierViolation where
  token : String
  dep : String
  tokenTier : String
  depTier : String
  line : Nat
  deriving DecidableEq

/-- The violations contributed by one `tokenDefs` entry in
`findTierViolations`: `unknown` is skipped, a `primitive` reports every
reference, other tiers report the references outside their allowed list. -/
def entryTierViolations (name : String) (d : TokenDef) : List TierViolation :=
  let tokenTier := getTier name
  if tokenTier = "unknown" then []
  else if tokenTier = "primitive" then
    d.refs.map (fun dep => ⟨name, dep, tokenTier, getTier dep, d.line⟩)
  else
    d.refs.filterMap (fun dep =>
      let depTier := getTier dep
      if (allowedDeps tokenTier).contains depTier then none
      else some ⟨name, dep, tokenTier, depTier, d.line⟩)

/-- Source `findTierViolations(tokenDefs)`. -/
def findTierViolations : List (String × TokenDef) → List TierViolation
  | [] => []
  | (name, d) :: rest => entryTierViolations name d ++ findTierViolations rest

/-- Source `findOrphans(tokenDefs, graph, ruleUsages)` (rule 4). -/
def findOrphans (tokenDefs : List (String × TokenDef))
    (graph : List (String × List String)) (ruleUsages : List String) :
    List String :=
  let referenced := (graph.map Prod.snd).flatten
  tokenDefs.filterMap (fun e =>
    if referenced.contains e.1 || ruleUsages.contains e.1 then none
    else some e.1)

/-- Source `findUnusedSemantics(tokenDefs, graph, ruleUsages)` (rule 5). -/
def findUnusedSemantics (tokenDefs : List (String × TokenDef))
    (graph : List (String × List String)) (ruleUsages : List String) :
    List String :=
  let usedByComponents :=
    (graph.filterMap (fun e =>
      if getTier e.1 = "component" then
        some (e.2.filter (fun dep => getTier dep = "semantic"))
      else none)).flatten
  tokenDefs.filterMap (fun e =>
    if getTier e.1 ≠ "semantic" then none
    else if usedByComponents.contains e.1 then none
    else if ruleUsages.contains e.1 then none
    else some e.1)

/-- Outcome of the inner `while (frame.childIdx < deps.length)` loop of
`findCycles`: either a WHITE dependency was found (with the updated
`childIdx` and the cycles recorded while scanning), or the edge list was
exhausted. -/
inductive ScanRes where
  | found (newIdx : Nat) (cycles : List (List String)) (dep : String)
  | exhausted (cycles : List (List String))
  deriving DecidableEq

/-- The inner edge scan of `findCycles`: skips undefined and BLACK
dependencies, records a cycle for every GRAY dependency, and stops at the
first WHITE dependency. -/
def innerScan (color : List (String × Nat)) (path : List String) :
    List String → Nat → List (List String) → ScanRes
  | [], _, cycles => .exhausted cycles
  | dep :: rest, idx, cycles =>
    match jsGet color dep with
    | none => innerScan color path rest (idx + 1) cycles
    | some c =>
      if c = 1 then innerScan color path rest (idx + 1) (cycles ++ [cycleFrom path dep])
      else if c = 0 then .found (idx + 1) cycles dep
      else innerScan color path rest (idx + 1) cycles

/-- A frame of the simulated call stack of `findCycles`. -/
structure Frame where
  node : String
  childIdx : Nat
  deriving DecidableEq

/-- The outer `while (callStack.length > 0)` loop of `dfs` in `findCycles`.
Every iteration either pushes a frame (at most once per node, which turns
GRAY permanently) or pops one, so a run started on one frame performs at
most `2 * |graph| + 2` iterations; the fuel is never exhausted. -/
def dfsLoop (graph : List (String × List String)) :
    Nat → List Frame → List String → List (String × Nat) → List (List String) →
    List (String × Nat) × List (List String)
  | 0, _, _, color, cycles => (color, cycles)
  | _ + 1, [], _, color, cycles => (color, cycles)
  | fuel + 1, frame :: stackRest, path, color, cycles =>
    let deps := (jsGet graph frame.node).getD []
    match innerScan color path (deps.drop frame.childIdx) frame.childIdx cycles with
    | .found newIdx cycles2 dep =>
      dfsLoop graph fuel
        (⟨dep, 0⟩ :: ⟨frame.node, newIdx⟩ :: stackRest)
        (path ++ [dep]) (jsSet color dep 1) cycles2
    | .exhausted cycles2 =>
      dfsLoop graph fuel stackRest path.dropLast (jsSet color frame.node 2) cycles2

/-- Fuel bound for one `dfs` run (see `dfsLoop`). -/
def dfsFuel (graph : List (String × List String)) : Nat :=
  2 * graph.length + 2

/-- The `for (const name of graph.keys())` driver loop of `findCycles`. -/
def cyclesOuter (graph : List (String × List String)) :
    List (String × Nat) × List (List String) → List String → List (List String)
  | (_, cycles), [] => cycles
  | (color, cycles), k :: ks =>
    if jsGet color k = some 0 then
      cyclesOuter graph
        (dfsLoop graph (dfsFuel graph) [⟨k, 0⟩] [k] (jsSet color k 1) cycles) ks
    else cyclesOuter graph (color, cycles) ks

/-- Source `findCycles(graph)` (iterative three-color DFS). -/
def findCycles (graph : List (String × List String)) : List (List String) :=
  let color0 := graph.foldl (fun c e => jsSet c e.1 0) []
  cyclesOuter graph (color0, []) (graph.map Prod.fst)

/-- JS `line ? ` (line ${line})` : ''` (`0` and `null` are falsy). -/
def lineWhere (l : Option Nat) : String :=
  match l with
  | some n => if n = 0 then String.mk [] else " (line " ++ toString n ++ ")"
  | none => String.mk []

def missingRefMsg (m : MissingRef) : ReportMsg :=
  ⟨"Missing reference: " ++ m.missing,
    some ("Referenced by " ++ m.consumer ++ lineWhere m.line ++ " but not defined anywhere")⟩

/-- JS `ALLOWED_DEPS[tokenTier].join(', ') || 'nothing (raw values only)'`. -/
def allowedStr (tokenTier : String) : String :=
  let s := String.intercalate (", ") (allowedDeps tokenTier)
  if s = String.mk [] then "nothing (raw values only)" else s

def tierViolationMsg (v : TierViolation) : ReportMsg :=
  ⟨"Tier violation: " ++ v.token ++ " (" ++ v.tokenTier ++ ") references " ++
      v.dep ++ " (" ++ v.depTier ++ ")",
    some ("line " ++ toString v.line ++ " — " ++ v.tokenTier ++
      " tokens may only reference: " ++ allowedStr v.tokenTier)⟩

def primInRuleMsg (u : PrimUse) : ReportMsg :=
  ⟨"Direct primitive in CSS rule: var(" ++ u.token ++ ")",
    some ("line " ++ toString u.line ++ " — use a --component-* token instead\n     context: " ++ u.context)⟩

def orphanMsg (name : String) : ReportMsg :=
  ⟨"Orphan token: " ++ name,
    some ("Defined but not referenced by any token or CSS rule")⟩

def unusedSemanticMsg (name : String) : ReportMsg :=
  ⟨"Unused semantic: " ++ name,
    some ("Not consumed by any component token or CSS rule")⟩

/-- Everything `main` computes after reading the CSS file. -/
structure ValidatorRun where
  errors : List ReportMsg
  warnings : List ReportMsg
  exitCode : Nat
  deriving DecidableEq

/-- Steps c)–g) of `main`: build the graph, run the five rule functions,
compile the error and warning lists in report order, and exit with
`errors.length > 0 ? 1 : 0`. -/
def runValidator (css : String) : ValidatorRun :=
  let p := parseCSS css
  let graph := buildGraph p.tokenDefs
  let errors :=
    (findMissingRefs p.tokenDefs p.ruleUsages).map missingRefMsg ++
    (findCycles graph).map cycleMsg ++
    (findTierViolations p.tokenDefs).map tierViolationMsg ++
    p.primInRules.map primInRuleMsg
  let warnings :=
    (findOrphans p.tokenDefs graph p.ruleUsages).map orphanMsg ++
    (findUnusedSemantics p.tokenDefs graph p.ruleUsages).map unusedSemanticMsg
  ⟨errors, warnings, if errors.length > 0 then 1 else 0⟩

end Validate

/-! ## `scripts/figma-sync-dry-run.js` (Phase 11 sync engine)

The parsing/validation/diff helpers are shared verbatim with
`scripts/figma-sync-apply.js` (Phase 12), which duplicates them. -/

namespace Figma

/-- The set `VALID_FIGMA_TIERS`. -/
def validFigmaTiers : List String :=
  ["primitive", "semantic", "component"]

/-- The stricter `FIGMA_ALLOWED_DEPS` table. -/
def figmaAllowedDeps : String → List String
  | "primitive" => []
  | "semantic" => ["primitive"]
  | "component" => ["semantic"]
  | _ => []

/-- Source `figmaNameToCSSVar(dotName)`:
`'--' + dotName.replace(/\./g, '-')`. -/
def figmaNameToCSSVar (dotName : String) : String :=
  "--" ++ String.map (fun c => if c = '.' then '-' else c) dotName

/-- Test and capture for `/^\{(.+)\}$/`: the whole value is brace-wrapped,
with a non-empty, newline-free interior (`.` does not match newlines). -/
def braceRefCapture (figmaValue : String) : Option String :=
  match figmaValue.data with
  | c :: rest =>
    if c = openBr then
      match rest.reverse with
      | last :: mid =>
        if last = closeBr ∧ mid ≠ [] ∧ ¬ mid.contains '\n' then
          some (String.mk mid.reverse)
        else none
      | [] => none
    else none
  | [] => none

/-- Source `figmaValueToCSS(figmaValue)`. -/
def figmaValueToCSS (figmaValue : String) : String :=
  match braceRefCapture figmaValue with
  | some inner => "var(" ++ figmaNameToCSSVar inner ++ ")"
  | none => figmaValue

/-- Source `extractFigmaRef(figmaValue)`. -/
def extractFigmaRef (figmaValue : String) : Option String :=
  (braceRefCapture figmaValue).map figmaNameToCSSVar

/-- Source `getTierFromCSSName(cssName)` (returns `null` for an
unrecognized name). -/
def getTierFromCSSName (cssName : String) : Option String :=
  if strStarts cssName ("--primitive-") then some "primitive"
  else if strStarts cssName ("--semantic-") then some "semantic"
  else if strStarts cssName ("--component-") then some "component"
  else if strStarts cssName ("--base-") then some "base"
  else none

/-- Source `getTierFromFigmaName(figmaName)`:
`figmaName.split('.')[0]` checked against `VALID_FIGMA_TIERS`. -/
def getTierFromFigmaName (figmaName : String) : Option String :=
  let firstSeg := String.mk (figmaName.data.takeWhile (fun c => c ≠ '.'))
  if validFigmaTiers.contains firstSeg then some firstSeg else none

/-- Entry of the `tokens` map built by `parseCSSTokens`. -/
structure CSSTok where
  value : String
  line : Nat
  deriving DecidableEq

/-- Parser state of `parseCSSTokens` (no layer tracking, no comment
skipping; note the differences from `Validate.lineStep`: the `:root` open
check runs before the brace count, `rootDepth` is the depth of the
enclosing context, exit is at `braceDepth <= rootDepth`). -/
structure DrCtx where
  braceDepth : Int
  inRoot : Bool
  rootDepth : Int
  deriving DecidableEq

/-- One iteration of the `parseCSSTokens` line loop: context transition
plus the declaration match found on the line (if inside `:root`). -/
def drLineStep (ctx : DrCtx) (raw : String) : DrCtx × Option (String × String) :=
  let trimmed := jsTrim raw
  let (inRoot1, rootDepth1) :=
    if !ctx.inRoot && matchRootOpen trimmed then (true, ctx.braceDepth)
    else (ctx.inRoot, ctx.rootDepth)
  let depth := ctx.braceDepth + (countChar openBr raw : Int) - (countChar closeBr raw : Int)
  let inRoot2 := if inRoot1 && depth ≤ rootDepth1 then false else inRoot1
  let out := if inRoot2 then matchDef trimmed else none
  (⟨depth, inRoot2, rootDepth1⟩, out)

/-- The line loop of `parseCSSTokens`; a matched declaration is stored with
`tokens.set` (unconditional overwrite). -/
def parseCSSTokensLines : DrCtx → List (String × CSSTok) → Nat → List String →
    List (String × CSSTok)
  | _, acc, _, [] => acc
  | ctx, acc, lineNum, l :: rest =>
    let (ctx2, out) := drLineStep ctx l
    let acc2 :=
      match out with
      | some (name, value) => jsSet acc name ⟨value, lineNum⟩
      | none => acc
    parseCSSTokensLines ctx2 acc2 (lineNum + 1) rest

/-- Source `parseCSSTokens(css)`. -/
def parseCSSTokens (css : String) : List (String × CSSTok) :=
  parseCSSTokensLines ⟨0, false, -1⟩ [] 1 (splitLines css)

/-- A normalized external token as produced by `parseFigmaExport`. -/
structure FigmaToken where
  cssName : String
  cssValue : String
  figmaName : String
  figmaValue : String
  tier : Option String
  deriving DecidableEq

/-- The per-entry conversion inside `parseFigmaExport` (after the field
checks succeed). -/
def normalizeFigmaEntry (name value : String) : FigmaToken :=
  ⟨figmaNameToCSSVar name, figmaValueToCSS value, name, value,
    getTierFromFigmaName name⟩

/-- The errors contributed by one token in `validateFigmaTiers`. -/
def figmaTierErrors (token : FigmaToken) : List ReportMsg :=
  match token.tier with
  | none =>
    [⟨"Unknown tier: " ++ token.figmaName,
      some ("Token name must start with \"primitive.\", \"semantic.\", or \"component.\"")⟩]
  | some tier =>
    match extractFigmaRef token.figmaValue with
    | none => []
    | some refCSSName =>
      match getTierFromCSSName refCSSName with
      | none =>
        [⟨"Unknown ref tier: " ++ token.figmaName,
          some ("Referenced \"" ++ refCSSName ++ "\" has no recognized tier prefix")⟩]
      | some refTier =>
        if ¬ validFigmaTiers.contains refTier then
          [⟨"Invalid ref tier: " ++ token.figmaName ++ " → " ++ refCSSName,
            some ("\"" ++ refTier ++ "\" tokens are code-only and must not be referenced from Figma exports")⟩]
        else
          let allowed := figmaAllowedDeps tier
          if ¬ allowed.contains refTier then
            let allowedTxt :=
              if allowed.length > 0 then String.intercalate (", ") allowed
              else "(nothing — primitive tokens must use raw values)"
            [⟨"Tier violation: " ++ token.figmaName ++ " → " ++ refCSSName,
              some (tier ++ " token references a " ++ refTier ++ " token. Allowed: " ++ allowedTxt)⟩]
          else []

/-- Source `validateFigmaTiers(figmaTokens)`. -/
def validateFigmaTiers : List FigmaToken → List ReportMsg
  | [] => []
  | token :: rest => figmaTierErrors token ++ validateFigmaTiers rest

/-- Source `buildFigmaGraph(figmaTokens)` (`buildGraph` in the apply
script): each token has at most one outgoing reference edge. -/
def buildFigmaGraph (figmaTokens : List FigmaToken) :
    List (String × List String) :=
  figmaTokens.foldl
    (fun g t =>
      jsSet g t.cssName (match extractFigmaRef t.figmaValue with
        | some ref => [ref]
        | none => []))
    []

/-- A frame of the Phase 11 `findCycles` (per-frame path copies). -/
structure FrFrame where
  node : String
  path : List String
  edgeIdx : Nat
  deriving DecidableEq

/-- Total number of edges of the graph (fuel accounting). -/
def totalDeps (graph : List (String × List String)) : Nat :=
  (graph.map (fun e => e.2.length)).sum

/-- The `while (stack.length > 0)` loop of `dfs` in the Phase 11
`findCycles`. Each iteration either consumes one edge of some frame or
pops a frame; pushes are bounded by the nodes ever colored, which is at
most `|graph| + totalDeps`, so the stated fuel is never exhausted. -/
def frDfsLoop (graph : List (String × List String)) :
    Nat → List FrFrame → List (String × Nat) → List (List String) →
    List (String × Nat) × List (List String)
  | 0, _, color, cycles => (color, cycles)
  | _ + 1, [], color, cycles => (color, cycles)
  | fuel + 1, frame :: stackRest, color, cycles =>
    let deps := (jsGet graph frame.node).getD []
    match deps.drop frame.edgeIdx with
    | [] => frDfsLoop graph fuel stackRest (jsSet color frame.node 2) cycles
    | dep :: _ =>
      let frame2 : FrFrame := ⟨frame.node, frame.path, frame.edgeIdx + 1⟩
      let color1 := if (jsGet color dep).isNone then jsSet color dep 0 else color
      match jsGet color1 dep with
      | some 1 =>
        frDfsLoop graph fuel (frame2 :: stackRest) color1
          (cycles ++ [cycleFrom frame.path dep])
      | some 0 =>
        frDfsLoop graph fuel
          (⟨dep, frame.path ++ [dep], 0⟩ :: frame2 :: stackRest)
          (jsSet color1 dep 1) cycles
      | _ => frDfsLoop graph fuel (frame2 :: stackRest) color1 cycles

/-- Fuel bound for one Phase 11 `dfs` run (see `frDfsLoop`). -/
def frDfsFuel (graph : List (String × List String)) : Nat :=
  2 * (graph.length + totalDeps graph) + 2

/-- The `for (const [node, clr] of color)` driver loop: a JS `Map`
iterator also yields entries appended during the iteration, so the loop is
indexed into the growing color list; the color list can gain at most one
entry per edge. -/
def frOuter (graph : List (String × List String)) :
    Nat → Nat → List (String × Nat) → List (List String) → List (List String)
  | 0, _, _, cycles => cycles
  | fuel + 1, i, color, cycles =>
    match color.drop i with
    | [] => cycles
    | e :: _ =>
      if e.2 = 0 then
        let r := frDfsLoop graph (frDfsFuel graph)
          [⟨e.1, [e.1], 0⟩] (jsSet color e.1 1) cycles
        frOuter graph fuel (i + 1) r.1 r.2
      else frOuter graph fuel (i + 1) color cycles

/-- Source `findCycles(graph)` of the Phase 11/12 scripts. -/
def findCyclesFigma (graph : List (String × List String)) : List (List String) :=
  let color0 := graph.foldl (fun c e => jsSet c e.1 0) []
  frOuter graph (graph.length + totalDeps graph + 1) 0 color0 []

/-- A NEW diff entry (`added.push({ name, figmaValue })`). -/
structure AddedItem where
  name : String
  figmaValue : String
  deriving DecidableEq

/-- A MODIFIED diff entry. -/
structure ModItem where
  name : String
  cssValue : String
  figmaValue : String
  deriving DecidableEq

/-- A REMOVED diff entry. -/
structure RemItem where
  name : String
  cssValue : String
  deriving DecidableEq

/-- An UNCHANGED diff entry. -/
structure UnchItem where
  name : String
  deriving DecidableEq

/-- Result of `diffTokens`. -/
structure Diff where
  added : List AddedItem
  modified : List ModItem
  removed : List RemItem
  unchanged : List UnchItem
  deriving DecidableEq

/-- JS `new Map(pairs)`: sequential insertion. -/
def jsMapOfPairs {β : Type} (pairs : List (String × β)) : List (String × β) :=
  pairs.foldl (fun m e => jsSet m e.1 e.2) []

/-- The `cssRelevant` filter of `diffTokens`: keep CSS tokens whose tier is
recognized and in the Figma tier universe. -/
def cssRelevantOf (cssTokens : List (String × CSSTok)) : List (String × CSSTok) :=
  cssTokens.foldl
    (fun m e =>
      match getTierFromCSSName e.1 with
      | some tier => if validFigmaTiers.contains tier then jsSet m e.1 e.2 else m
      | none => m)
    []

/-- The first classification loop of `diffTokens` (over the Figma map). -/
def classifyFigma (cssRelevant : List (String × CSSTok)) :
    List (String × String) → List AddedItem × List ModItem × List UnchItem
  | [] => ([], [], [])
  | (name, figmaValue) :: rest =>
    let r := classifyFigma cssRelevant rest
    match jsGet cssRelevant name with
    | none => (⟨name, figmaValue⟩ :: r.1, r.2.1, r.2.2)
    | some data =>
      if data.value ≠ figmaValue then (r.1, ⟨name, data.value, figmaValue⟩ :: r.2.1, r.2.2)
      else (r.1, r.2.1, ⟨name⟩ :: r.2.2)

/-- The second classification loop of `diffTokens` (CSS-only names). -/
def classifyRemoved (figmaMap : List (String × String)) :
    List (String × CSSTok) → List RemItem
  | [] => []
  | (name, data) :: rest =>
    if (jsGet figmaMap name).isNone then
      ⟨name, data.value⟩ :: classifyRemoved figmaMap rest
    else classifyRemoved figmaMap rest

/-- Source `diffTokens(cssTokens, figmaTokens)`. -/
def diffTokens (cssTokens : List (String × CSSTok))
    (figmaTokens : List FigmaToken) : Diff :=
  let figmaMap := jsMapOfPairs (figmaTokens.map (fun t => (t.cssName, t.cssValue)))
  let cssRelevant := cssRelevantOf cssTokens
  let c := classifyFigma cssRelevant figmaMap
  ⟨c.1, c.2.1, classifyRemoved figmaMap cssRelevant, c.2.2⟩

/-- Steps e)–f) of the dry-run `main`: architecture errors (tier rules plus
cycles) block the run before any diff is computed. -/
inductive GateResult where
  | blocked (archErrors : List ReportMsg)
  | diffed (diff : Diff)
  deriving DecidableEq

/-- The dry-run gate: `archErrors.length > 0` exits with code 1 before the
diff step; otherwise the diff is computed. -/
def dryRunGate (cssTokens : List (String × CSSTok))
    (figmaTokens : List FigmaToken) : GateResult :=
  let archErrors :=
    validateFigmaTiers figmaTokens ++
      (findCyclesFigma (buildFigmaGraph figmaTokens)).map cycleMsg
  if archErrors.length > 0 then .blocked archErrors
  else .diffed (diffTokens cssTokens figmaTokens)

end Figma

/-! ## `scripts/figma-sync-apply.js` (Phase 12 apply engine)

The review loop is embedded with the operator's answers as a stream
`answers : Nat → String` indexed by a running prompt counter; rendering
(`console.log`) is output-only and dropped. -/

namespace Apply

open Figma

/-- Result of one `prompt` call. -/
inductive Decision where
  | yes
  | no
  | all
  | skip
  | quit
  deriving DecidableEq

/-- JS `answer.trim().toLowerCase()`. -/
def normAnswer (answer : String) : String :=
  jsToLower (jsTrim answer)

/-- Source `prompt(rl, question)`: unrecognized input and bare Enter
default to `yes`. -/
def promptDecision (answer : String) : Decision :=
  let a := normAnswer answer
  if a = "a" then .all
  else if a = "s" then .skip
  else if a = "q" then .quit
  else if a = "n" ∨ a = "no" then .no
  else .yes

/-- Result of `reviewCategory`: approved and skipped entries, the quit
flag, and the value of the prompt counter afterwards. -/
structure ReviewResult (α : Type) where
  approved : List α
  skipped : List α
  quit : Bool
  nextPrompt : Nat
  deriving DecidableEq

/-- The item loop of `reviewCategory`, with `applyAll` / `skipAll` flags.
On `quit` the current and all remaining items are pushed to `skipped` and
the loop returns immediately with the entries approved so far. -/
def reviewLoop {α : Type} (answers : Nat → String) :
    List α → Bool → Bool → Nat → ReviewResult α
  | [], _, _, k => ⟨[], [], false, k⟩
  | item :: rest, applyAll, skipAll, k =>
    if applyAll then
      let r := reviewLoop answers rest applyAll skipAll k
      ⟨item :: r.approved, r.skipped, r.quit, r.nextPrompt⟩
    else if skipAll then
      let r := reviewLoop answers rest applyAll skipAll k
      ⟨r.approved, item :: r.skipped, r.quit, r.nextPrompt⟩
    else
      match promptDecision (answers k) with
      | .quit => ⟨[], item :: rest, true, k + 1⟩
      | .all =>
        let r := reviewLoop answers rest true skipAll (k + 1)
        ⟨item :: r.approved, r.skipped, r.quit, r.nextPrompt⟩
      | .skip =>
        let r := reviewLoop answers rest applyAll true (k + 1)
        ⟨r.approved, item :: r.skipped, r.quit, r.nextPrompt⟩
      | .yes =>
        let r := reviewLoop answers rest applyAll skipAll (k + 1)
        ⟨item :: r.approved, r.skipped, r.quit, r.nextPrompt⟩
      | .no =>
        let r := reviewLoop answers rest applyAll skipAll (k + 1)
        ⟨r.approved, item :: r.skipped, r.quit, r.nextPrompt⟩

/-- Source `reviewCategory(rl, kind, items, renderItem)` (the `kind` only
selects the displayed verb; rendering is output-only). -/
def reviewCategory {α : Type} (answers : Nat → String) (items : List α)
    (k : Nat) : ReviewResult α :=
  reviewLoop answers items false false k

/-- An entry of the persisted registry changelog. A `remove` entry has no
`value` property (`value := none`). -/
structure ChangeEntry where
  action : String
  token : String
  value : Option String
  prev : Option String
  deriving DecidableEq

/-- The user theme registry (`{ tokens, removed, changelog }`). -/
structure Registry where
  tokens : List (String × String)
  removed : List String
  changelog : List ChangeEntry
  deriving DecidableEq

/-- The three approved change lists handed to `mergeRegistryChanges`. -/
structure Changes where
  added : List AddedItem
  updated : List ModItem
  removedFromTheme : List RemItem
  deriving DecidableEq

/-- Intermediate merge state: evolving token map, removed set, and the
changelog being built (which starts empty — `const changelog = []`). -/
structure MergeState where
  tokens : List (String × String)
  removedSet : List String
  changelog : List ChangeEntry
  deriving DecidableEq

/-- The `changes.added` loop of `mergeRegistryChanges`. -/
def mergeAdded : MergeState → List AddedItem → MergeState
  | st, [] => st
  | st, item :: rest =>
    let prev := jsOrNull (jsGet st.tokens item.name)
    mergeAdded
      ⟨jsSet st.tokens item.name item.figmaValue,
        jsSetDelete st.removedSet item.name,
        st.changelog ++ [⟨"add", item.name, some item.figmaValue, prev⟩]⟩
      rest

/-- The `changes.updated` loop of `mergeRegistryChanges`. -/
def mergeUpdated : MergeState → List ModItem → MergeState
  | st, [] => st
  | st, item :: rest =>
    let prev := jsOr (jsGet st.tokens item.name) item.cssValue
    mergeUpdated
      ⟨jsSet st.tokens item.name item.figmaValue,
        st.removedSet,
        st.changelog ++ [⟨"update", item.name, some item.figmaValue, some prev⟩]⟩
      rest

/-- The `changes.removedFromTheme` loop of `mergeRegistryChanges`. -/
def mergeRemoved : MergeState → List RemItem → MergeState
  | st, [] => st
  | st, item :: rest =>
    let prev := jsOrNull (jsGet st.tokens item.name)
    mergeRemoved
      ⟨jsDelete st.tokens item.name,
        jsSetAdd st.removedSet item.name,
        st.changelog ++ [⟨"remove", item.name, none, prev⟩]⟩
      rest

/-- Source `mergeRegistryChanges(current, changes)`. -/
def mergeRegistryChanges (current : Registry) (changes : Changes) : Registry :=
  let st := mergeRemoved
    (mergeUpdated
      (mergeAdded ⟨current.tokens, current.removed, []⟩ changes.added)
      changes.updated)
    changes.removedFromTheme
  ⟨st.tokens, st.removedSet, st.changelog⟩

/-- Outcome of the apply `main` after the architecture gate. -/
inductive ApplyOutcome where
  | nothingToApply
  | quitNoApproval
  | noChangesApproved
  | written (merged : Registry) (approvedAdded : List AddedItem)
      (approvedUpdated : List ModItem) (approvedRemoved : List RemItem)
      (prompts : Nat) (skipped : Nat)
  deriving DecidableEq

/-- Steps e)–h) of the apply `main`: early exit when the diff has no NEW
and no MODIFIED entries; `--yes` approves all NEW/MODIFIED and never any
removal; interactively the NEW, MODIFIED and (previously overridden)
REMOVED categories are reviewed in turn, later categories being skipped
once `quit` was chosen; quitting with nothing approved exits without
writing, otherwise the approved entries are merged and written. -/
def runApply (yes : Bool) (diff : Diff) (current : Registry)
    (answers : Nat → String) : ApplyOutcome :=
  if diff.added.length = 0 ∧ diff.modified.length = 0 then .nothingToApply
  else
    let removableFromTheme :=
      diff.removed.filter (fun r => (jsGet current.tokens r.name).isSome)
    if yes then
      let merged := mergeRegistryChanges current ⟨diff.added, diff.modified, []⟩
      .written merged diff.added diff.modified [] 0 removableFromTheme.length
    else
      let rNew := reviewCategory answers diff.added 0
      let rMod :=
        if rNew.quit then (⟨[], [], false, rNew.nextPrompt⟩ : ReviewResult ModItem)
        else reviewCategory answers diff.modified rNew.nextPrompt
      let quit1 := rNew.quit || rMod.quit
      let rRem :=
        if quit1 then (⟨[], [], false, rMod.nextPrompt⟩ : ReviewResult RemItem)
        else reviewCategory answers removableFromTheme rMod.nextPrompt
      let quit2 := quit1 || rRem.quit
      let skippedCount := rNew.skipped.length + rMod.skipped.length + rRem.skipped.length
      let total := rNew.approved.length + rMod.approved.length + rRem.approved.length
      if quit2 ∧ total = 0 then .quitNoApproval
      else if total = 0 then .noChangesApproved
      else
        .written
          (mergeRegistryChanges current ⟨rNew.approved, rMod.approved, rRem.approved⟩)
          rNew.approved rMod.approved rRem.approved rRem.nextPrompt skippedCount

end Apply

/-! ## Refinement views of the two CSS extractions

Both extractions scan lines with a context transition that does not depend
on the accumulated token map (`Validate.lineStep` / `Figma.drLineStep`).
The event lists below record every root-scope declaration match those
scans encounter, in source order; the parsers are then provably the
first-wins (respectively last-wins) fold over these events. -/

/-- All root-scope declaration matches encountered by the `parseCSS` scan
of `validate-tokens.js`, in source order: `(name, value, line, layer)`. -/
def rootDefEventsLines : Validate.Ctx → Nat → List String →
    List (String × String × Nat × Option String)
  | _, _, [] => []
  | ctx, lineNum, l :: rest =>
    let s := Validate.lineStep ctx l
    (match s.2 with
      | .rootDef (some (name, value)) layer => [(name, value, lineNum, layer)]
      | _ => []) ++ rootDefEventsLines s.1 (lineNum + 1) rest

def rootDefEvents (css : String) : List (String × String × Nat × Option String) :=
  rootDefEventsLines ⟨0, false, -1, []⟩ 1 (splitLines css)

/-- The `tokenDefs` entry built from a declaration event by `parseCSS`. -/
def eventTokenDef (e : String × String × Nat × Option String) : Validate.TokenDef :=
  ⟨e.2.1, extractVarRefs e.2.1, e.2.2.1, e.2.2.2⟩

/-- All root-scope declaration matches encountered by the `parseCSSTokens`
scan of `figma-sync-dry-run.js`, in source order: `(name, value, line)`. -/
def drRootDefEventsLines : Figma.DrCtx → Nat → List String →
    List (String × String × Nat)
  | _, _, [] => []
  | ctx, lineNum, l :: rest =>
    let s := Figma.drLineStep ctx l
    (match s.2 with
      | some (name, value) => [(name, value, lineNum)]
      | none => []) ++ drRootDefEventsLines s.1 (lineNum + 1) rest

def drRootDefEvents (css : String) : List (String × String × Nat) :=
  drRootDefEventsLines ⟨0, false, -1⟩ 1 (splitLines css)

/-- The `tokens` entry built from a declaration event by `parseCSSTokens`. -/
def drEventTok (e : String × String × Nat) : Figma.CSSTok :=
  ⟨e.2.1, e.2.2⟩

/-! ## Lemmas about the insertion-ordered maps -/

theorem jsGet_append {β : Type} (m1 m2 : List (String × β)) (k : String) :
    jsGet (m1 ++ m2) k = (jsGet m1 k).orElse (fun _ => jsGet m2 k) := by
  induction m1 with
  | nil => simp [jsGet]
  | cons e rest ih =>
    rcases e with ⟨k', v⟩
    by_cases hk : k = k' <;> simp [jsGet, hk, ih]

theorem jsGet_jsSet {β : Type} (m : List (String × β)) (k k' : String) (v : β) :
    jsGet (jsSet m k v) k' = if k' = k then some v else jsGet m k' := by
  induction m with
  | nil =>
    by_cases hk : k' = k <;> simp [jsSet, jsGet, hk]
  | cons e rest ih =>
    rcases e with ⟨k0, v0⟩
    by_cases h1 : k = k0
    · subst h1
      by_cases h2 : k' = k <;> simp [jsSet, jsGet, h2]
    · by_cases h2 : k' = k0
      · subst h2
        have h3 : k' ≠ k := fun hh => h1 hh.symm
        simp [jsSet, jsGet, h1, h3]
      · simp [jsSet, jsGet, h1, h2, ih]

theorem jsGet_jsSetIfAbsent {β : Type} (m : List (String × β)) (k k' : String) (v : β) :
    jsGet (jsSetIfAbsent m k v) k' =
      if k' = k then (jsGet m k).orElse (fun _ => some v) else jsGet m k' := by
  by_cases hp : (jsGet m k).isSome
  · rcases Option.isSome_iff_exists.mp hp with ⟨w, hw⟩
    by_cases hk : k' = k <;> simp [jsSetIfAbsent, hp, hk, hw]
  · have hn : jsGet m k = none := Option.not_isSome_iff_eq_none.mp hp
    by_cases hk : k' = k
    · subst hk
      simp [jsSetIfAbsent, hp, jsGet_append, hn, jsGet]
    · simp [jsSetIfAbsent, hp, jsGet_append, hk, jsGet]

/-! ## Claims -/

/-- C2: for every token definition whose name has the primitive tier
prefix, every reference occurring in its value is reported as a
tier-violation error by `findTierViolations`, regardless of the tier of
the referenced name. -/
theorem C2_primitive_refs_always_violations
    (defs : List (String × Validate.TokenDef)) (name : String)
    (d : Validate.TokenDef) (dep : String)
    (hmem : (name, d) ∈ defs)
    (htier : Validate.getTier name = "primitive")
    (hrefs : d.refs = extractVarRefs d.value)
    (hdep : dep ∈ extractVarRefs d.value) :
    (⟨name, dep, "primitive", Validate.getTier dep, d.line⟩ : Validate.TierViolation) ∈
      Validate.findTierViolations defs := by
  induction defs with
  | nil => cases hmem
  | cons e rest ih =>
    rcases List.mem_cons.mp hmem with heq | hmem2
    · subst heq
      apply List.mem_append.mpr
      left
      simp only [Validate.entryTierViolations, htier]
      norm_num
      exact ⟨by decide, dep, by rw [hrefs]; exact hdep, rfl, rfl⟩
    · rcases e with ⟨n0, d0⟩
      exact List.mem_append.mpr (Or.inr (ih hmem2))

theorem C2_witness :
    (("--primitive-a",
        (⟨"var(--x)", ["--x"], 3, none⟩ : Validate.TokenDef)) ∈
      [("--primitive-a", (⟨"var(--x)", ["--x"], 3, none⟩ : Validate.TokenDef))]) ∧
    Validate.getTier ("--primitive-a") = "primitive" ∧
    (⟨"--primitive-a", "--x", "primitive", Validate.getTier ("--x"), 3⟩ :
        Validate.TierViolation) ∈
      Validate.findTierViolations
        [("--primitive-a", (⟨"var(--x)", ["--x"], 3, none⟩ : Validate.TokenDef))] :=
  ⟨by decide, by decide,
    C2_primitive_refs_always_violations
      [("--primitive-a", ⟨"var(--x)", ["--x"], 3, none⟩)]
      ("--primitive-a") ⟨"var(--x)", ["--x"], 3, none⟩ ("--x")
      (by decide) (by decide) (by decide) (by decide)⟩

/-- C3: the validator exits with code 0 exactly when the compiled error
list is empty (warnings do not influence the exit code), and otherwise
exits with code 1 — no other exit code is possible. -/
theorem C3_exit_zero_iff_no_errors (css : String) :
    ((Validate.runValidator css).exitCode = 0 ↔ (Validate.runValidator css).errors = []) ∧
    ((Validate.runValidator css).exitCode = 0 ∨ (Validate.runValidator css).exitCode = 1) ∧
    (Validate.runValidator css).exitCode =
      (if (Validate.runValidator css).errors = [] then 0 else 1) := by
  have key : ∀ (E : List ReportMsg),
      ((if E.length > 0 then (1 : Nat) else 0) = 0 ↔ E = []) ∧
      ((if E.length > 0 then (1 : Nat) else 0) = 0 ∨ (if E.length > 0 then (1 : Nat) else 0) = 1) ∧
      (if E.length > 0 then (1 : Nat) else 0) = (if E = [] then 0 else 1) := by
    intro E
    cases E <;> simp
  simp only [Validate.runValidator]
  exact key _

/-- C4 helper: a batch entry whose `tier` is `null` always contributes an
`Unknown tier` error to `validateFigmaTiers`. -/
theorem validateFigmaTiers_ne_nil_of_unknown (toks : List Figma.FigmaToken)
    (t : Figma.FigmaToken) (hmem : t ∈ toks) (hbad : t.tier = none) :
    Figma.validateFigmaTiers toks ≠ [] := by
  induction toks with
  | nil => cases hmem
  | cons t0 rest ih =>
    rcases List.mem_cons.mp hmem with heq | hmem2
    · subst heq
      simp [Figma.validateFigmaTiers, Figma.figmaTierErrors, hbad]
    · intro hcon
      simp only [Figma.validateFigmaTiers] at hcon
      rcases List.append_eq_nil.mp hcon with ⟨h1, h2⟩
      exact ih hmem2 h2

/-- C4: an external batch containing a token whose dotted name's first
segment is not `primitive` / `semantic` / `component` (e.g. the code-only
`base` segment) makes `validateFigmaTiers` report at least one error, and
the dry-run gate then blocks the whole batch: no diff is ever produced. -/
theorem C4_invalid_tier_blocks_batch (batch : List (String × String))
    (cssTokens : List (String × Figma.CSSTok)) (nm val : String)
    (hmem : (nm, val) ∈ batch)
    (hbad : Figma.getTierFromFigmaName nm = none) :
    Figma.validateFigmaTiers (batch.map (fun e => Figma.normalizeFigmaEntry e.1 e.2)) ≠ [] ∧
    ∀ d : Figma.Diff,
      Figma.dryRunGate cssTokens (batch.map (fun e => Figma.normalizeFigmaEntry e.1 e.2)) ≠
        Figma.GateResult.diffed d := by
  have ht : (Figma.normalizeFigmaEntry nm val).tier = none := hbad
  have hm : Figma.normalizeFigmaEntry nm val ∈
      batch.map (fun e => Figma.normalizeFigmaEntry e.1 e.2) := by
    have := List.mem_map_of_mem (fun e => Figma.normalizeFigmaEntry e.1 e.2) hmem
    simpa using this
  have hne := validateFigmaTiers_ne_nil_of_unknown _ _ hm ht
  refine ⟨hne, ?_⟩
  intro d
  simp only [Figma.dryRunGate]
  have hlen : 0 < (Figma.validateFigmaTiers
      (batch.map (fun e => Figma.normalizeFigmaEntry e.1 e.2))).length :=
    List.length_pos.mpr hne
  rw [if_pos]
  · intro hcon
    cases hcon
  · simp only [List.length_append]
    omega

theorem C4_witness :
    (("base.x", "1px") ∈ [("base.x", "1px")]) ∧
    Figma.getTierFromFigmaName ("base.x") = none ∧
    Figma.validateFigmaTiers
      ([("base.x", "1px")].map (fun e => Figma.normalizeFigmaEntry e.1 e.2)) ≠ [] ∧
    Figma.dryRunGate []
      ([("base.x", "1px")].map (fun e => Figma.normalizeFigmaEntry e.1 e.2)) ≠
        Figma.GateResult.diffed ⟨[], [], [], []⟩ := by
  have h := C4_invalid_tier_blocks_batch [("base.x", "1px")] [] ("base.x") ("1px")
    (by decide) (by decide)
  exact ⟨by decide, by decide, h.1, h.2 ⟨[], [], [], []⟩⟩

/-- C10: at the approval prompt, the recognized decision answers are
matched case-insensitively after trimming (`a` accepts all, `s` skips all,
`q` quits, `n`/`no` rejects), and everything else — including the empty
answer — resolves to acceptance of the presented entry. -/
theorem C10_prompt_default_accept (s : String) :
    (Apply.promptDecision s = .all ↔ Apply.normAnswer s = "a") ∧
    (Apply.promptDecision s = .skip ↔ Apply.normAnswer s = "s") ∧
    (Apply.promptDecision s = .quit ↔ Apply.normAnswer s = "q") ∧
    (Apply.promptDecision s = .no ↔ (Apply.normAnswer s = "n" ∨ Apply.normAnswer s = "no")) ∧
    (Apply.normAnswer s ≠ "a" → Apply.normAnswer s ≠ "s" → Apply.normAnswer s ≠ "q" →
      Apply.normAnswer s ≠ "n" → Apply.normAnswer s ≠ "no" →
      Apply.promptDecision s = .yes) ∧
    Apply.promptDecision "" = .yes := by
  refine ⟨?_, ?_, ?_, ?_, ?_, by decide⟩ <;>
    (simp only [Apply.promptDecision]; split_ifs <;> simp_all <;> tauto)

theorem C10_witness :
    Apply.normAnswer ("maybe") ≠ "a" ∧ Apply.normAnswer ("maybe") ≠ "s" ∧
    Apply.normAnswer ("maybe") ≠ "q" ∧ Apply.normAnswer ("maybe") ≠ "n" ∧
    Apply.normAnswer ("maybe") ≠ "no" ∧
    Apply.promptDecision ("maybe") = .yes := by
  have h := C10_prompt_default_accept ("maybe")
  exact ⟨by decide, by decide, by decide, by decide, by decide,
    h.2.2.2.2.1 (by decide) (by decide) (by decide) (by decide) (by decide)⟩

/-! ## Lemmas about the registry merge (claims C5–C7) -/

theorem jsGet_jsDelete {β : Type} (m : List (String × β)) (k k' : String) :
    jsGet (jsDelete m k) k' = if k' = k then none else jsGet m k' := by
  induction m with
  | nil => by_cases hk : k' = k <;> simp [jsDelete, jsGet, hk]
  | cons e rest ih =>
    rcases e with ⟨k0, v0⟩
    by_cases h0 : k0 = k
    · subst h0
      by_cases hk : k' = k0
      · subst hk
        simp [jsDelete, jsGet, ih]
      · simp [jsDelete, jsGet, hk, ih]
    · by_cases hk : k' = k0
      · subst hk
        have h3 : k' ≠ k := fun hh => h0 hh
        simp [jsDelete, jsGet, h0, h3]
      · simp [jsDelete, jsGet, h0, hk, ih]

theorem mergeAdded_actions (l : List Figma.AddedItem) (st : Apply.MergeState) :
    ∀ e ∈ (Apply.mergeAdded st l).changelog, e ∈ st.changelog ∨ e.action = "add" := by
  induction l generalizing st with
  | nil => intro e he; exact Or.inl he
  | cons item rest ih =>
    intro e he
    rcases ih _ _ he with hmem | hact
    · rcases List.mem_append.mp hmem with h1 | h2
      · exact Or.inl h1
      · simp at h2
        subst h2
        exact Or.inr rfl
    · exact Or.inr hact

theorem mergeUpdated_actions (l : List Figma.ModItem) (st : Apply.MergeState) :
    ∀ e ∈ (Apply.mergeUpdated st l).changelog, e ∈ st.changelog ∨ e.action = "update" := by
  induction l generalizing st with
  | nil => intro e he; exact Or.inl he
  | cons item rest ih =>
    intro e he
    rcases ih _ _ he with hmem | hact
    · rcases List.mem_append.mp hmem with h1 | h2
      · exact Or.inl h1
      · simp at h2
        subst h2
        exact Or.inr rfl
    · exact Or.inr hact

theorem mergeAdded_shape (l : List Figma.AddedItem) (st : Apply.MergeState) :
    (Apply.mergeAdded st l).changelog.map (fun e => (e.action, e.token, e.value)) =
      st.changelog.map (fun e => (e.action, e.token, e.value)) ++
        l.map (fun i => ("add", i.name, some i.figmaValue)) := by
  induction l generalizing st with
  | nil => simp [Apply.mergeAdded]
  | cons item rest ih => simp [Apply.mergeAdded, ih]

theorem mergeUpdated_shape (l : List Figma.ModItem) (st : Apply.MergeState) :
    (Apply.mergeUpdated st l).changelog.map (fun e => (e.action, e.token, e.value)) =
      st.changelog.map (fun e => (e.action, e.token, e.value)) ++
        l.map (fun i => ("update", i.name, some i.figmaValue)) := by
  induction l generalizing st with
  | nil => simp [Apply.mergeUpdated]
  | cons item rest ih => simp [Apply.mergeUpdated, ih]

theorem mergeRemoved_shape (l : List Figma.RemItem) (st : Apply.MergeState) :
    (Apply.mergeRemoved st l).changelog.map (fun e => (e.action, e.token, e.value)) =
      st.changelog.map (fun e => (e.action, e.token, e.value)) ++
        l.map (fun i => ("remove", i.name, (none : Option String))) := by
  induction l generalizing st with
  | nil => simp [Apply.mergeRemoved]
  | cons item rest ih => simp [Apply.mergeRemoved, ih]

theorem mergeAdded_tokens_get (l : List Figma.AddedItem) (st : Apply.MergeState)
    (k : String) (hk : k ∉ l.map (fun i => i.name)) :
    jsGet (Apply.mergeAdded st l).tokens k = jsGet st.tokens k := by
  induction l generalizing st with
  | nil => rfl
  | cons item rest ih =>
    simp only [List.map_cons, List.mem_cons] at hk
    push_neg at hk
    simp only [Apply.mergeAdded]
    rw [ih _ hk.2]
    simp [jsGet_jsSet, hk.1]

theorem mergeUpdated_tokens_get (l : List Figma.ModItem) (st : Apply.MergeState)
    (k : String) (hk : k ∉ l.map (fun i => i.name)) :
    jsGet (Apply.mergeUpdated st l).tokens k = jsGet st.tokens k := by
  induction l generalizing st with
  | nil => rfl
  | cons item rest ih =>
    simp only [List.map_cons, List.mem_cons] at hk
    push_neg at hk
    simp only [Apply.mergeUpdated]
    rw [ih _ hk.2]
    simp [jsGet_jsSet, hk.1]

theorem mergeAdded_prevs (l : List Figma.AddedItem) (st : Apply.MergeState)
    (hnodup : (l.map (fun i => i.name)).Nodup) :
    (Apply.mergeAdded st l).changelog.map (fun e => e.prev) =
      st.changelog.map (fun e => e.prev) ++
        l.map (fun i => jsOrNull (jsGet st.tokens i.name)) := by
  induction l generalizing st with
  | nil => simp [Apply.mergeAdded]
  | cons item rest ih =>
    simp only [List.map_cons, List.nodup_cons] at hnodup
    simp only [Apply.mergeAdded]
    rw [ih _ hnodup.2]
    simp only [List.map_append, List.map_cons, List.map_nil, List.append_assoc,
      List.cons_append, List.nil_append]
    congr 1
    congr 1
    apply List.map_congr_left
    intro i hi
    have hne : i.name ≠ item.name := by
      intro hcon
      exact hnodup.1 (hcon ▸ List.mem_map_of_mem (fun j => j.name) hi)
    simp [jsGet_jsSet, hne]

theorem mergeUpdated_prevs (l : List Figma.ModItem) (st : Apply.MergeState)
    (hnodup : (l.map (fun i => i.name)).Nodup) :
    (Apply.mergeUpdated st l).changelog.map (fun e => e.prev) =
      st.changelog.map (fun e => e.prev) ++
        l.map (fun i => some (jsOr (jsGet st.tokens i.name) i.cssValue)) := by
  induction l generalizing st with
  | nil => simp [Apply.mergeUpdated]
  | cons item rest ih =>
    simp only [List.map_cons, List.nodup_cons] at hnodup
    simp only [Apply.mergeUpdated]
    rw [ih _ hnodup.2]
    simp only [List.map_append, List.map_cons, List.map_nil, List.append_assoc,
      List.cons_append, List.nil_append]
    congr 1
    congr 1
    apply List.map_congr_left
    intro i hi
    have hne : i.name ≠ item.name := by
      intro hcon
      exact hnodup.1 (hcon ▸ List.mem_map_of_mem (fun j => j.name) hi)
    simp [jsGet_jsSet, hne]

theorem mergeRemoved_prevs (l : List Figma.RemItem) (st : Apply.MergeState)
    (hnodup : (l.map (fun i => i.name)).Nodup) :
    (Apply.mergeRemoved st l).changelog.map (fun e => e.prev) =
      st.changelog.map (fun e => e.prev) ++
        l.map (fun i => jsOrNull (jsGet st.tokens i.name)) := by
  induction l generalizing st with
  | nil => simp [Apply.mergeRemoved]
  | cons item rest ih =>
    simp only [List.map_cons, List.nodup_cons] at hnodup
    simp only [Apply.mergeRemoved]
    rw [ih _ hnodup.2]
    simp only [List.map_append, List.map_cons, List.map_nil, List.append_assoc,
      List.cons_append, List.nil_append]
    congr 1
    congr 1
    apply List.map_congr_left
    intro i hi
    have hne : i.name ≠ item.name := by
      intro hcon
      exact hnodup.1 (hcon ▸ List.mem_map_of_mem (fun j => j.name) hi)
    simp [jsGet_jsDelete, hne]

/-- C5: if the operator accepts the first of three NEW entries and aborts
on the second, exactly the first entry is approved, merged and written;
the third entry is never prompted (only two prompts are issued) and the
later categories are not reviewed. In general a quit writes exactly the
approved subset: whatever `runApply` writes is the merge of the approved
entries and nothing else. -/
theorem C5_abort_preserves_accepted (e1 e2 e3 : Figma.AddedItem)
    (ms : List Figma.ModItem) (rs : List Figma.RemItem) (us : List Figma.UnchItem)
    (current : Apply.Registry) (answers : Nat → String)
    (h0 : Apply.promptDecision (answers 0) = .yes)
    (h1 : Apply.promptDecision (answers 1) = .quit) :
    Apply.runApply false ⟨[e1, e2, e3], ms, rs, us⟩ current answers =
      .written (Apply.mergeRegistryChanges current ⟨[e1], [], []⟩) [e1] [] [] 2 2 ∧
    (Apply.mergeRegistryChanges current ⟨[e1], [], []⟩).tokens =
      jsSet current.tokens e1.name e1.figmaValue ∧
    (Apply.mergeRegistryChanges current ⟨[e1], [], []⟩).changelog =
      [⟨"add", e1.name, some e1.figmaValue, jsOrNull (jsGet current.tokens e1.name)⟩] ∧
    (∀ (diff : Figma.Diff) (m : Apply.Registry) (aA : List Figma.AddedItem)
        (aU : List Figma.ModItem) (aR : List Figma.RemItem) (p sk : Nat),
      Apply.runApply false diff current answers = .written m aA aU aR p sk →
      m = Apply.mergeRegistryChanges current ⟨aA, aU, aR⟩) := by
  refine ⟨?_, ?_, ?_, ?_⟩
  · simp [Apply.runApply, Apply.reviewCategory, Apply.reviewLoop, h0, h1]
  · simp [Apply.mergeRegistryChanges, Apply.mergeAdded, Apply.mergeUpdated, Apply.mergeRemoved]
  · simp [Apply.mergeRegistryChanges, Apply.mergeAdded, Apply.mergeUpdated, Apply.mergeRemoved]
  · intro diff m aA aU aR p sk heq
    simp only [Apply.runApply] at heq
    split_ifs at heq <;> cases heq <;> rfl

theorem C5_witness :
    Apply.promptDecision ((fun n => if n = 0 then "y" else "q") 0) = .yes ∧
    Apply.promptDecision ((fun n => if n = 0 then "y" else "q") 1) = .quit ∧
    Apply.runApply false
        ⟨[⟨"--semantic-a", "1"⟩, ⟨"--semantic-b", "2"⟩, ⟨"--semantic-c", "3"⟩], [], [], []⟩
        ⟨[], [], []⟩ (fun n => if n = 0 then "y" else "q") =
      .written
        (Apply.mergeRegistryChanges ⟨[], [], []⟩ ⟨[⟨"--semantic-a", "1"⟩], [], []⟩)
        [⟨"--semantic-a", "1"⟩] [] [] 2 2 := by
  refine ⟨by decide, by decide, ?_⟩
  exact (C5_abort_preserves_accepted ⟨"--semantic-a", "1"⟩ ⟨"--semantic-b", "2"⟩
    ⟨"--semantic-c", "3"⟩ [] [] [] ⟨[], [], []⟩
    (fun n => if n = 0 then "y" else "q") (by decide) (by decide)).1

/-- C6: in non-interactive (`--yes`) batch mode every NEW and every
MODIFIED diff entry is approved automatically with zero prompts, no
REMOVED entry is ever approved (the removable overrides are only counted
as skipped), and the resulting merge contains no `remove` changelog
action. -/
theorem C6_batch_mode_excludes_removals (diff : Figma.Diff)
    (current : Apply.Registry) (answers : Nat → String)
    (hne : ¬(diff.added.length = 0 ∧ diff.modified.length = 0)) :
    Apply.runApply true diff current answers =
      .written (Apply.mergeRegistryChanges current ⟨diff.added, diff.modified, []⟩)
        diff.added diff.modified [] 0
        (diff.removed.filter (fun r => (jsGet current.tokens r.name).isSome)).length ∧
    ∀ e ∈ (Apply.mergeRegistryChanges current ⟨diff.added, diff.modified, []⟩).changelog,
      e.action = "add" ∨ e.action = "update" := by
  constructor
  · simp [Apply.runApply, hne]
    intro h1 h2
    exact hne ⟨by simp [h1], by simp [h2]⟩
  · intro e he
    simp only [Apply.mergeRegistryChanges, Apply.mergeRemoved] at he
    rcases mergeUpdated_actions _ _ _ he with hmem | hact
    · rcases mergeAdded_actions _ _ _ hmem with hmem2 | hact2
      · simp at hmem2
      · exact Or.inl hact2
    · exact Or.inr hact

theorem C6_witness :
    ¬((⟨[⟨"--semantic-x", "red"⟩], [], [⟨"--semantic-y", "sys"⟩], []⟩ : Figma.Diff).added.length = 0 ∧
      (⟨[⟨"--semantic-x", "red"⟩], [], [⟨"--semantic-y", "sys"⟩], []⟩ : Figma.Diff).modified.length = 0) ∧
    Apply.runApply true ⟨[⟨"--semantic-x", "red"⟩], [], [⟨"--semantic-y", "sys"⟩], []⟩
        ⟨[("--semantic-y", "over")], [], []⟩ (fun _ => "") =
      .written
        (Apply.mergeRegistryChanges ⟨[("--semantic-y", "over")], [], []⟩
          ⟨[⟨"--semantic-x", "red"⟩], [], []⟩)
        [⟨"--semantic-x", "red"⟩] [] [] 0 1 := by
  refine ⟨by decide, ?_⟩
  have h := (C6_batch_mode_excludes_removals
    ⟨[⟨"--semantic-x", "red"⟩], [], [⟨"--semantic-y", "sys"⟩], []⟩
    ⟨[("--semantic-y", "over")], [], []⟩ (fun _ => "") (by decide)).1
  simpa using h

/-- C7 counterexample: the changelog written back by `mergeRegistryChanges`
is not append-only — an entry present in the loaded registry's changelog
is absent from the merged registry, which holds only this run's entry. -/
theorem C7_counterexample :
    (Apply.mergeRegistryChanges
        ⟨[], [], [⟨"add", "--semantic-old", some "1px", none⟩]⟩
        ⟨[⟨"--semantic-x", "red"⟩], [], []⟩).changelog =
      [⟨"add", "--semantic-x", some "red", none⟩] ∧
    (⟨"add", "--semantic-old", some "1px", none⟩ : Apply.ChangeEntry) ∉
      (Apply.mergeRegistryChanges
        ⟨[], [], [⟨"add", "--semantic-old", some "1px", none⟩]⟩
        ⟨[⟨"--semantic-x", "red"⟩], [], []⟩).changelog ∧
    (⟨"add", "--semantic-old", some "1px", none⟩ : Apply.ChangeEntry) ∈
      (⟨[], [], [⟨"add", "--semantic-old", some "1px", none⟩]⟩ : Apply.Registry).changelog := by
  decide

/-- C7 (amended): for every apply run the registry written back contains
exactly one changelog entry per approved diff entry, in category order
(`add`, then `update`, then `remove`), each carrying the token's value
from just before that entry was applied (here stated for runs whose
approved names are pairwise distinct: `add`/`remove` entries carry the
loaded override value or `null`, `update` entries fall back to the diff's
CSS value) — changelog entries present in the loaded registry are
discarded rather than preserved. -/
theorem C7_changelog_per_run (current : Apply.Registry) (changes : Apply.Changes)
    (hnodup : (changes.added.map (fun i => i.name) ++ changes.updated.map (fun i => i.name) ++
      changes.removedFromTheme.map (fun i => i.name)).Nodup) :
    (Apply.mergeRegistryChanges current changes).changelog.map
        (fun e => (e.action, e.token, e.value)) =
      changes.added.map (fun i => ("add", i.name, some i.figmaValue)) ++
      changes.updated.map (fun i => ("update", i.name, some i.figmaValue)) ++
      changes.removedFromTheme.map (fun i => ("remove", i.name, (none : Option String))) ∧
    (Apply.mergeRegistryChanges current changes).changelog.length =
      changes.added.length + changes.updated.length + changes.removedFromTheme.length ∧
    (Apply.mergeRegistryChanges current changes).changelog.map (fun e => e.prev) =
      changes.added.map (fun i => jsOrNull (jsGet current.tokens i.name)) ++
      changes.updated.map (fun i => some (jsOr (jsGet current.tokens i.name) i.cssValue)) ++
      changes.removedFromTheme.map (fun i => jsOrNull (jsGet current.tokens i.name)) := by
  obtain ⟨hab, hc, hdisj2⟩ := List.nodup_append.mp hnodup
  obtain ⟨ha, hb, hdisj1⟩ := List.nodup_append.mp hab
  have hshape :
      (Apply.mergeRegistryChanges current changes).changelog.map
        (fun e => (e.action, e.token, e.value)) =
      changes.added.map (fun i => ("add", i.name, some i.figmaValue)) ++
      changes.updated.map (fun i => ("update", i.name, some i.figmaValue)) ++
      changes.removedFromTheme.map (fun i => ("remove", i.name, (none : Option String))) := by
    simp only [Apply.mergeRegistryChanges]
    rw [mergeRemoved_shape, mergeUpdated_shape, mergeAdded_shape]
    simp [List.append_assoc]
  refine ⟨hshape, ?_, ?_⟩
  · have := congrArg List.length hshape
    simp at this
    omega
  · simp only [Apply.mergeRegistryChanges]
    rw [mergeRemoved_prevs _ _ hc, mergeUpdated_prevs _ _ hb, mergeAdded_prevs _ _ ha]
    have hupd : changes.updated.map (fun i => some (jsOr
        (jsGet (Apply.mergeAdded ⟨current.tokens, current.removed, []⟩ changes.added).tokens i.name)
        i.cssValue)) =
        changes.updated.map (fun i => some (jsOr (jsGet current.tokens i.name) i.cssValue)) := by
      apply List.map_congr_left
      intro i hi
      rw [mergeAdded_tokens_get]
      intro hcon
      exact hdisj1 hcon (List.mem_map_of_mem (fun j => j.name) hi)
    have hrem : changes.removedFromTheme.map (fun i => jsOrNull
        (jsGet (Apply.mergeUpdated
          (Apply.mergeAdded ⟨current.tokens, current.removed, []⟩ changes.added)
          changes.updated).tokens i.name)) =
        changes.removedFromTheme.map (fun i => jsOrNull (jsGet current.tokens i.name)) := by
      apply List.map_congr_left
      intro i hi
      have hic : i.name ∈ changes.removedFromTheme.map (fun j => j.name) :=
        List.mem_map_of_mem (fun j => j.name) hi
      rw [mergeUpdated_tokens_get, mergeAdded_tokens_get]
      · intro hcon
        exact hdisj2 (List.mem_append.mpr (Or.inl hcon)) hic
      · intro hcon
        exact hdisj2 (List.mem_append.mpr (Or.inr hcon)) hic
    rw [hupd, hrem]
    simp [List.append_assoc]

theorem C7_witness :
    ((([⟨"--a", "1"⟩] : List Figma.AddedItem).map (fun i => i.name) ++
      ([⟨"--semantic-x", "css", "new"⟩] : List Figma.ModItem).map (fun i => i.name) ++
      ([⟨"--b", "sys"⟩] : List Figma.RemItem).map (fun i => i.name)).Nodup) ∧
    (Apply.mergeRegistryChanges ⟨[("--semantic-x", "old")], [], []⟩
        ⟨[⟨"--a", "1"⟩], [⟨"--semantic-x", "css", "new"⟩], [⟨"--b", "sys"⟩]⟩).changelog.map
        (fun e => (e.action, e.token, e.value)) =
      ([⟨"--a", "1"⟩] : List Figma.AddedItem).map (fun i => ("add", i.name, some i.figmaValue)) ++
      ([⟨"--semantic-x", "css", "new"⟩] : List Figma.ModItem).map
        (fun i => ("update", i.name, some i.figmaValue)) ++
      ([⟨"--b", "sys"⟩] : List Figma.RemItem).map
        (fun i => ("remove", i.name, (none : Option String))) := by
  constructor
  · decide
  · exact (C7_changelog_per_run ⟨[("--semantic-x", "old")], [], []⟩
      ⟨[⟨"--a", "1"⟩], [⟨"--semantic-x", "css", "new"⟩], [⟨"--b", "sys"⟩]⟩ (by decide)).1

/-! ## Claim C1 — two-token cycles -/

/-- C1: for the dependency graph holding exactly the two-token cycle
A→B→A, both `findCycles` implementations return exactly one cycle — an
ordered name list containing both A and B whose closing name repeats the
opening one — in either key insertion (visit) order. -/
theorem C1_two_token_cycle (A B : String) (h : A ≠ B) :
    (∃ c, Validate.findCycles [(A, [B]), (B, [A])] = [c] ∧
      A ∈ c ∧ B ∈ c ∧ c.head? = c.getLast?) ∧
    (∃ c, Validate.findCycles [(B, [A]), (A, [B])] = [c] ∧
      A ∈ c ∧ B ∈ c ∧ c.head? = c.getLast?) ∧
    (∃ c, Figma.findCyclesFigma [(A, [B]), (B, [A])] = [c] ∧
      A ∈ c ∧ B ∈ c ∧ c.head? = c.getLast?) ∧
    (∃ c, Figma.findCyclesFigma [(B, [A]), (A, [B])] = [c] ∧
      A ∈ c ∧ B ∈ c ∧ c.head? = c.getLast?) := by
  have h2 : B ≠ A := Ne.symm h
  refine ⟨⟨[A, B, A], ?_, by simp, by simp, by rfl⟩,
    ⟨[B, A, B], ?_, by simp, by simp, by rfl⟩,
    ⟨[A, B, A], ?_, by simp, by simp, by rfl⟩,
    ⟨[B, A, B], ?_, by simp, by simp, by rfl⟩⟩
  · simp [Validate.findCycles, Validate.cyclesOuter, Validate.dfsLoop, Validate.dfsFuel,
      Validate.innerScan, jsGet, jsSet, cycleFrom, idxOfStr, h, h2]
  · simp [Validate.findCycles, Validate.cyclesOuter, Validate.dfsLoop, Validate.dfsFuel,
      Validate.innerScan, jsGet, jsSet, cycleFrom, idxOfStr, h, h2]
  · simp [Figma.findCyclesFigma, Figma.frOuter, Figma.frDfsLoop, Figma.frDfsFuel,
      Figma.totalDeps, jsGet, jsSet, cycleFrom, idxOfStr, h, h2]
  · simp [Figma.findCyclesFigma, Figma.frOuter, Figma.frDfsLoop, Figma.frDfsFuel,
      Figma.totalDeps, jsGet, jsSet, cycleFrom, idxOfStr, h, h2]

theorem C1_witness :
    (("a" : String) ≠ "b") ∧
    (∃ c, Validate.findCycles [("a", ["b"]), ("b", ["a"])] = [c] ∧
      ("a" : String) ∈ c ∧ ("b" : String) ∈ c ∧ c.head? = c.getLast?) ∧
    (∃ c, Figma.findCyclesFigma [("a", ["b"]), ("b", ["a"])] = [c] ∧
      ("a" : String) ∈ c ∧ ("b" : String) ∈ c ∧ c.head? = c.getLast?) := by
  have h := C1_two_token_cycle ("a") ("b") (by decide)
  exact ⟨by decide, h.1, h.2.2.1⟩

/-! ## Claim C8 — duplicate definitions in the two extractions -/

theorem addUsage_tokenDefs (names : List String) (lineNum : Nat) (context : String)
    (acc : Validate.ParseResult) :
    (names.foldl (Validate.addUsage lineNum context) acc).tokenDefs = acc.tokenDefs := by
  induction names generalizing acc with
  | nil => rfl
  | cons nm rest ih =>
    simp only [List.foldl_cons]
    rw [ih]
    simp only [Validate.addUsage]
    split_ifs <;> rfl

theorem parseCSSLines_tokenDefs (ls : List String) :
    ∀ (ctx : Validate.Ctx) (acc : Validate.ParseResult) (n : Nat),
      (Validate.parseCSSLines ctx acc n ls).tokenDefs =
        (rootDefEventsLines ctx n ls).foldl
          (fun m e => jsSetIfAbsent m e.1 (eventTokenDef e)) acc.tokenDefs := by
  induction ls with
  | nil => intro ctx acc n; rfl
  | cons l rest ih =>
    intro ctx acc n
    rcases hstep : Validate.lineStep ctx l with ⟨ctx2, out⟩
    simp only [Validate.parseCSSLines, rootDefEventsLines, hstep]
    cases out with
    | skip =>
      simp only [List.nil_append]
      rw [ih]
      rfl
    | rootDef d layer =>
      cases d with
      | none =>
        simp only [List.nil_append]
        rw [ih]
        rfl
      | some nv =>
        rcases nv with ⟨name, value⟩
        simp only [List.singleton_append, List.foldl_cons]
        rw [ih]
        rfl
    | ruleUses names =>
      simp only [List.nil_append]
      rw [ih]
      congr 1
      exact addUsage_tokenDefs names n (Validate.contextOf (jsTrim l)) acc


theorem foldl_jsSetIfAbsent_get {β γ : Type} (f : γ → β) (key : γ → String)
    (evs : List γ) :
    ∀ (m0 : List (String × β)) (k : String),
      jsGet (evs.foldl (fun m e => jsSetIfAbsent m (key e) (f e)) m0) k =
        (jsGet m0 k).orElse
          (fun _ => (evs.find? (fun e => key e = k)).map f) := by
  induction evs with
  | nil =>
    intro m0 k
    cases hget : jsGet m0 k <;> simp [hget, Option.orElse]
  | cons e rest ih =>
    intro m0 k
    simp only [List.foldl_cons]
    rw [ih, jsGet_jsSetIfAbsent]
    by_cases hk : k = key e
    · subst hk
      simp only [if_pos rfl, List.find?_cons, decide_eq_true_eq]
      cases hget : jsGet m0 (key e) <;> simp [hget, Option.orElse]
    · have hk2 : ¬ key e = k := fun hh => hk hh.symm
      simp only [if_neg hk, List.find?_cons, hk2, decide_eq_true_eq]
      cases hget : jsGet m0 k <;> simp [hget, hk2, Option.orElse]

theorem foldl_jsSet_get {β γ : Type} (f : γ → β) (key : γ → String)
    (evs : List γ) :
    ∀ (m0 : List (String × β)) (k : String),
      jsGet (evs.foldl (fun m e => jsSet m (key e) (f e)) m0) k =
        ((evs.reverse.find? (fun e => key e = k)).map f).orElse
          (fun _ => jsGet m0 k) := by
  induction evs with
  | nil => intro m0 k; simp [Option.orElse]
  | cons e rest ih =>
    intro m0 k
    simp only [List.foldl_cons, List.reverse_cons]
    rw [ih, List.find?_append]
    cases hfind : rest.reverse.find? (fun e => decide (key e = k)) with
    | some x => simp [Option.or, Option.orElse]
    | none =>
      simp only [Option.none_or]
      rw [jsGet_jsSet]
      by_cases hk : k = key e
      · subst hk
        simp [List.find?_cons, Option.orElse]
      · have hk2 : ¬ key e = k := fun hh => hk hh.symm
        cases hget : jsGet m0 k <;> simp [hget, List.find?_cons, hk, hk2, Option.orElse]


theorem parseCSSTokensLines_eq (ls : List String) :
    ∀ (ctx : Figma.DrCtx) (acc : List (String × Figma.CSSTok)) (n : Nat),
      Figma.parseCSSTokensLines ctx acc n ls =
        (drRootDefEventsLines ctx n ls).foldl
          (fun m e => jsSet m e.1 (drEventTok e)) acc := by
  induction ls with
  | nil => intro ctx acc n; rfl
  | cons l rest ih =>
    intro ctx acc n
    rcases hstep : Figma.drLineStep ctx l with ⟨ctx2, out⟩
    simp only [Figma.parseCSSTokensLines, drRootDefEventsLines, hstep]
    cases out with
    | none =>
      simp only [List.nil_append]
      exact ih ctx2 acc (n + 1)
    | some nv =>
      rcases nv with ⟨name, value⟩
      simp only [List.singleton_append, List.foldl_cons]
      exact ih ctx2 _ (n + 1)

/-- C8 (amended): the validator extraction (`parseCSS`) maps every token
name to the FIRST root-scope definition found for it; the extraction
consumed by the diff engine (`parseCSSTokens`, whose result `main` passes
to `diffTokens`) maps every name to the LAST root-scope definition found
for it — for every stylesheet text and every name. -/
theorem C8_first_vs_last_wins (css : String) (name : String) :
    jsGet (Validate.parseCSS css).tokenDefs name =
      ((rootDefEvents css).find? (fun e => e.1 = name)).map eventTokenDef ∧
    jsGet (Figma.parseCSSTokens css) name =
      ((drRootDefEvents css).reverse.find? (fun e => e.1 = name)).map drEventTok := by
  constructor
  · unfold Validate.parseCSS rootDefEvents
    rw [parseCSSLines_tokenDefs]
    have h := foldl_jsSetIfAbsent_get eventTokenDef (fun e => e.1)
      (rootDefEventsLines ⟨0, false, -1, []⟩ 1 (splitLines css)) [] name
    simpa [jsGet, Option.orElse] using h
  · unfold Figma.parseCSSTokens drRootDefEvents
    rw [parseCSSTokensLines_eq]
    have h := foldl_jsSet_get drEventTok (fun e => e.1)
      (drRootDefEventsLines ⟨0, false, -1⟩ 1 (splitLines css)) [] name
    rw [h]
    cases hf : (drRootDefEventsLines ⟨0, false, -1⟩ 1 (splitLines css)).reverse.find?
      (fun e => decide (e.1 = name)) <;> simp [jsGet, Option.orElse]


/-- C8 counterexample: on a stylesheet defining `--primitive-a` twice
inside `:root`, the validator extraction keeps the first value `1px`, but
the extraction consumed by the diff engine returns the second value `2px`
— refuting first-definition-wins for "every extraction the system
performs". -/
theorem C8_counterexample :
    (jsGet (Validate.parseCSS
        (":root \x7b\n  --primitive-a: 1px;\n  --primitive-a: 2px;\n\x7d\n")).tokenDefs
      ("--primitive-a")).map Validate.TokenDef.value = some "1px" ∧
    (jsGet (Figma.parseCSSTokens
        (":root \x7b\n  --primitive-a: 1px;\n  --primitive-a: 2px;\n\x7d\n"))
      ("--primitive-a")).map Figma.CSSTok.value = some "2px" ∧
    (drRootDefEvents
        (":root \x7b\n  --primitive-a: 1px;\n  --primitive-a: 2px;\n\x7d\n")).map
      (fun e => (e.1, e.2.1)) =
      [("--primitive-a", "1px"), ("--primitive-a", "2px")] ∧
    ("1px" : String) ≠ "2px" := by
  refine ⟨?_, ?_, ?_, by decide⟩ <;> rfl


/-! ## Claim C9 — diff determinism and identity on equal sets -/

section C9Section

open Figma
theorem jsSet_absent {β : Type} (m : List (String × β)) (k : String) (v : β)
    (h : jsGet m k = none) : jsSet m k v = m ++ [(k, v)] := by
  induction m with
  | nil => simp [jsSet]
  | cons e rest ih =>
    rcases e with ⟨k0, v0⟩
    simp only [jsGet] at h
    by_cases hk : k = k0
    · simp [hk] at h
    · simp [jsSet, hk, ih (by simpa [hk] using h)]

theorem foldl_jsSet_append {β : Type} (l m0 : List (String × β))
    (habs : ∀ k ∈ l.map Prod.fst, jsGet m0 k = none)
    (hnodup : (l.map Prod.fst).Nodup) :
    l.foldl (fun m e => jsSet m e.1 e.2) m0 = m0 ++ l := by
  induction l generalizing m0 with
  | nil => simp
  | cons e rest ih =>
    rcases e with ⟨k, v⟩
    simp only [List.map_cons, List.nodup_cons] at hnodup
    have h0 : jsGet m0 k = none := habs k (by simp)
    simp only [List.foldl_cons]
    rw [jsSet_absent _ _ _ h0]
    rw [ih (m0 ++ [(k, v)]) ?_ hnodup.2]
    · simp
    · intro k2 hk2
      rw [jsGet_append]
      have hne : k2 ≠ k := by
        intro hcon
        exact hnodup.1 (hcon ▸ hk2)
      simp [habs k2 (by simp [hk2]), jsGet, hne]

theorem jsMapOfPairs_self {β : Type} (l : List (String × β))
    (hnodup : (l.map Prod.fst).Nodup) : jsMapOfPairs l = l := by
  have := foldl_jsSet_append l [] (fun k _ => rfl) hnodup
  simpa [jsMapOfPairs] using this


theorem cssRelevantOf_fold_eq (l : List (String × CSSTok))
    (htier : ∀ e ∈ l, ∃ t, getTierFromCSSName e.1 = some t ∧ t ∈ validFigmaTiers) :
    ∀ m0 : List (String × CSSTok),
      l.foldl (fun m e =>
        match getTierFromCSSName e.1 with
        | some tier => if validFigmaTiers.contains tier then jsSet m e.1 e.2 else m
        | none => m) m0 =
      l.foldl (fun m e => jsSet m e.1 e.2) m0 := by
  induction l with
  | nil => intro m0; rfl
  | cons e rest ih =>
    intro m0
    rcases htier e (by simp) with ⟨t, ht, htm⟩
    have hc : validFigmaTiers.contains t = true := by
      simpa using htm
    simp only [List.foldl_cons, ht, hc, if_true]
    exact ih (fun e2 he2 => htier e2 (by simp [he2])) _

theorem cssRelevantOf_self (css : List (String × CSSTok))
    (htier : ∀ e ∈ css, ∃ t, getTierFromCSSName e.1 = some t ∧ t ∈ validFigmaTiers)
    (hnodup : (css.map Prod.fst).Nodup) :
    cssRelevantOf css = css := by
  unfold cssRelevantOf
  rw [cssRelevantOf_fold_eq css htier []]
  have := foldl_jsSet_append css [] (fun k _ => rfl) hnodup
  simpa using this

theorem jsGet_map_self {α β : Type} (F : List α) (key : α → String) (val : α → β)
    (hnodup : (F.map key).Nodup) (t : α) (ht : t ∈ F) :
    jsGet (F.map (fun x => (key x, val x))) (key t) = some (val t) := by
  induction F with
  | nil => cases ht
  | cons x rest ih =>
    simp only [List.map_cons, List.nodup_cons] at hnodup
    rcases List.mem_cons.mp ht with heq | hmem
    · subst heq
      simp [jsGet]
    · by_cases hk : key t = key x
      · exact absurd (hk ▸ List.mem_map_of_mem key hmem) hnodup.1
      · simp [jsGet, hk, ih hnodup.2 hmem]

theorem classifyFigma_self (cssRel : List (String × CSSTok)) :
    ∀ L : List (String × String),
      (∀ p ∈ L, ∃ tok : CSSTok, jsGet cssRel p.1 = some tok ∧ tok.value = p.2) →
      classifyFigma cssRel L = ([], [], L.map (fun p => (⟨p.1⟩ : UnchItem))) := by
  intro L
  induction L with
  | nil => intro _; rfl
  | cons p rest ih =>
    intro hall
    rcases hall p (by simp) with ⟨tok, htok, hval⟩
    rcases p with ⟨n, fv⟩
    simp only [classifyFigma, ih (fun q hq => hall q (by simp [hq])), htok]
    simp [hval]

theorem classifyRemoved_nil (figmaMap : List (String × String)) :
    ∀ rel : List (String × CSSTok),
      (∀ e ∈ rel, (jsGet figmaMap e.1).isSome) →
      classifyRemoved figmaMap rel = [] := by
  intro rel
  induction rel with
  | nil => intro _; rfl
  | cons e rest ih =>
    intro hall
    rcases e with ⟨n, d⟩
    have he := hall (n, d) (by simp)
    rcases Option.isSome_iff_exists.mp he with ⟨w, hw⟩
    simp only [classifyRemoved, hw]
    simp only [Option.isNone_some, Bool.false_eq_true, if_false]
    exact ih (fun e2 he2 => hall e2 (by simp [he2]))


/-- C9: `diffTokens` is a pure deterministic function (two runs on the
same inputs give identical classified lists), and diffing a token set
within the externally manageable tiers against itself yields empty NEW,
MODIFIED and REMOVED lists with every name classified UNCHANGED. -/
theorem C9_diff_identity_on_self (F : List FigmaToken) (lineOf : String → Nat)
    (hnodup : (F.map (fun t => t.cssName)).Nodup)
    (htier : ∀ t ∈ F, ∃ tr, getTierFromCSSName t.cssName = some tr ∧
      tr ∈ validFigmaTiers) :
    (∀ (a : List (String × CSSTok)) (b : List FigmaToken),
      Figma.diffTokens a b = Figma.diffTokens a b) ∧
    Figma.diffTokens (F.map (fun t => (t.cssName, ⟨t.cssValue, lineOf t.cssName⟩))) F =
      ⟨[], [], [], F.map (fun t => ⟨t.cssName⟩)⟩ := by
  refine ⟨fun a b => rfl, ?_⟩
  simp only [Figma.diffTokens]
  have hkeys1 : ((F.map (fun t => (t.cssName, t.cssValue))).map Prod.fst).Nodup := by
    simpa [List.map_map, Function.comp] using hnodup
  have hkeys2 : ((F.map (fun t =>
      (t.cssName, (⟨t.cssValue, lineOf t.cssName⟩ : CSSTok)))).map Prod.fst).Nodup := by
    simpa [List.map_map, Function.comp] using hnodup
  rw [jsMapOfPairs_self _ hkeys1]
  rw [cssRelevantOf_self _ ?_ hkeys2]
  · rw [classifyFigma_self _ _ ?_]
    · rw [classifyRemoved_nil _ _ ?_]
      · simp [List.map_map, Function.comp]
      · intro e he
        rcases List.mem_map.mp he with ⟨t, htm, rfl⟩
        rw [jsGet_map_self F (fun t => t.cssName) (fun t => t.cssValue) hnodup t htm]
        rfl
    · intro p hp
      rcases List.mem_map.mp hp with ⟨t, htm, rfl⟩
      refine ⟨⟨t.cssValue, lineOf t.cssName⟩, ?_, rfl⟩
      exact jsGet_map_self F (fun t => t.cssName)
        (fun t => (⟨t.cssValue, lineOf t.cssName⟩ : CSSTok)) hnodup t htm
  · intro e he
    rcases List.mem_map.mp he with ⟨t, htm, rfl⟩
    exact htier t htm


theorem C9_witness :
    ((([⟨"--primitive-a", "1px", "primitive.a", "1px", some "primitive"⟩] :
        List FigmaToken).map (fun t => t.cssName)).Nodup) ∧
    Figma.diffTokens
        (([⟨"--primitive-a", "1px", "primitive.a", "1px", some "primitive"⟩] :
          List FigmaToken).map
          (fun t => (t.cssName, ⟨t.cssValue, (fun _ => 1) t.cssName⟩)))
        [⟨"--primitive-a", "1px", "primitive.a", "1px", some "primitive"⟩] =
      ⟨[], [], [],
        ([⟨"--primitive-a", "1px", "primitive.a", "1px", some "primitive"⟩] :
          List FigmaToken).map (fun t => ⟨t.cssName⟩)⟩ := by
  refine ⟨by decide, ?_⟩
  exact (C9_diff_identity_on_self [⟨"--primitive-a", "1px", "primitive.a", "1px", some "primitive"⟩]
    (fun _ => 1) (by decide)
    (fun t ht => by
      simp at ht
      subst ht
      exact ⟨"primitive", rfl, by decide⟩)).2


end C9Section

end DS
